import Mathlib

/-!
Verification of the measurement-and-aggregation pipeline of the
vllm_playground repository.

The two components with algorithmic content are embedded here:

* the Measurement Recorder (`scripts/run_baseline.py`, function
  `run_baseline_benchmark`): per-request metric derivation (TTFT
  approximation, decode throughput) and the write of the result store;
* the Result Aggregator (`scripts/analyze_results.py`): `load_results`,
  `analyze_results`, `print_summary_table`, `export_to_csv`, and the
  control flow of `main`.

Modelling conventions:

* Python floats are modelled as exact rationals (`ℚ`); every arithmetic
  identity below is about the exact formulas of the code.
* a JSON record (a Python dict) is modelled as a structure whose fields are
  `Option`-valued: `none` models an absent key.  Subscript access
  `r["ttft"]` (which raises `KeyError` when absent) is modelled through
  `Except Unit`; `r.get(k, 0)` is modelled by `Option.getD _ 0`.
* the standard-library calls `statistics.mean`, `statistics.median` and
  `statistics.stdev` and the builtins `min`/`max` are modelled from their
  documented semantics (`pyMean`, `pyMedian`, `sampleVariance`, `pyMin`,
  `pyMax`).  Because `statistics.stdev` is a square root, which leaves `ℚ`,
  the aggregate stores the square of the standard deviation
  (`ttft_stdev_sq`); `x ↦ Real.sqrt x` is injective on the nonnegative
  rationals, so equalities of standard deviations correspond exactly to
  equalities of these squares, and theorems about the standard deviation
  itself are stated through `Real.sqrt`.
* JSON serialisation (`json.dumps`) and parsing (`json.loads`) are external
  library calls; they appear as explicit function parameters
  (`ser : Record → List Char`, `parse : List Char → Option Record`).
* text is modelled as `List Char`; Python `str.strip()` is `stripChars`,
  and iteration over the lines of an open text file is `splitFileLines`.
-/

/-- PerformanceRecord: one row per executed request, as written by
`run_baseline_benchmark` (lines 161-171 of `run_baseline.py`) and as read
back by the aggregator.  Every field is optional because the aggregator
consumes raw JSON objects in which any key may be absent. -/
structure Record where
  context_length : Option Int
  sample_id : Option Int
  prompt_tokens : Option ℚ
  output_tokens : Option ℚ
  ttft : Option ℚ
  total_latency : Option ℚ
  decode_throughput : Option ℚ
  peak_gpu_memory_gb : Option ℚ
  timestamp : Option ℚ
  deriving Repr, DecidableEq

/-- TTFT approximation of `run_baseline.py` line 149:
`ttft = total_latency / (num_output_tokens + 1)`. -/
def ttftOf (total_latency : ℚ) (num_output_tokens : ℕ) : ℚ :=
  total_latency / ((num_output_tokens : ℚ) + 1)

/-- Decode-phase duration of `run_baseline.py` line 152:
`decode_time = total_latency - ttft`. -/
def decodeTimeOf (total_latency : ℚ) (num_output_tokens : ℕ) : ℚ :=
  total_latency - ttftOf total_latency num_output_tokens

/-- Decode throughput of `run_baseline.py` line 153:
`decode_throughput = num_output_tokens / decode_time if decode_time > 0 else 0`. -/
def decodeThroughputOf (total_latency : ℚ) (num_output_tokens : ℕ) : ℚ :=
  if decodeTimeOf total_latency num_output_tokens > 0 then
    (num_output_tokens : ℚ) / decodeTimeOf total_latency num_output_tokens
  else 0

/-- Observation of one engine call, as the benchmark loop sees it: the
prompt metadata plus the quantities measured around the black-box
`llm.generate` call (wall-clock duration, token counts, peak device
memory, record-creation time). -/
structure EngineObs where
  context_length : Int
  sample_id : Int
  prompt_tokens : ℕ
  num_output_tokens : ℕ
  total_latency : ℚ
  peak_memory : ℚ
  timestamp : ℚ
  deriving Repr, DecidableEq

/-- Construction of the result dict of `run_baseline.py` lines 145-171 from
one observed engine call. -/
def measureRecord (o : EngineObs) : Record :=
  { context_length := some o.context_length
    sample_id := some o.sample_id
    prompt_tokens := some (o.prompt_tokens : ℚ)
    output_tokens := some (o.num_output_tokens : ℚ)
    ttft := some (ttftOf o.total_latency o.num_output_tokens)
    total_latency := some o.total_latency
    decode_throughput := some (decodeThroughputOf o.total_latency o.num_output_tokens)
    peak_gpu_memory_gb := some o.peak_memory
    timestamp := some o.timestamp }

/-- Record list produced by the measurement loop of
`run_baseline_benchmark` (lines 114-173): one record per prompt, in
prompt order. -/
def runBenchmark (obs : List EngineObs) : List Record :=
  obs.map measureRecord

/-- Store content after the save step of `run_baseline_benchmark`
(lines 179-183).  The code opens `results_path` with mode `"w"`, which
truncates the file, then writes each serialised record followed by a
newline; hence the resulting store content is exactly the serialised new
records, whatever lines (`prior`) the store held before the run.
`ser` stands for the external `json.dumps`. -/
def saveResults (ser : Record → List Char) (results : List Record)
    (prior : List (List Char)) : List (List Char) :=
  results.map ser

/-- Python `str.strip()` on a line: remove leading and trailing
whitespace characters. -/
def stripChars (l : List Char) : List Char :=
  ((l.dropWhile Char.isWhitespace).reverse.dropWhile Char.isWhitespace).reverse

/-- Worker of `load_results` (`analyze_results.py` lines 27-39): walk the
lines with a 1-based line counter, strip each line, silently skip lines
that strip to nothing, try to parse the rest, collect parsed records in
file order and the line numbers of the lines whose parse failed (each such
number is one `logger.warning` call).  `parse` stands for the external
`json.loads`. -/
def loadAux (parse : List Char → Option Record) :
    ℕ → List (List Char) → List Record × List ℕ
  | _, [] => ([], [])
  | n, l :: ls =>
    let rest := loadAux parse (n + 1) ls
    let s := stripChars l
    if s = [] then rest
    else
      match parse s with
      | some r => (r :: rest.1, rest.2)
      | none => (rest.1, n :: rest.2)

/-- Model of `load_results`: returns the parsed records in file order and
the warned line numbers.  The function is total: no input aborts the
load. -/
def load_results (parse : List Char → Option Record)
    (lines : List (List Char)) : List Record × List ℕ :=
  loadAux parse 1 lines

/-- Helper of `splitFileLines`: `acc` holds the current line read so far,
reversed. -/
def splitLinesAux : List Char → List Char → List (List Char)
  | acc, [] => if acc = [] then [] else [acc.reverse]
  | acc, c :: cs =>
    if c = '\n' then (acc.reverse ++ ['\n']) :: splitLinesAux [] cs
    else splitLinesAux (c :: acc) cs

/-- Iteration over the lines of an open text file (`for line in f`): each
yielded line keeps its terminating newline; a final segment without a
newline is yielded as-is; an empty tail yields nothing. -/
def splitFileLines (content : List Char) : List (List Char) :=
  splitLinesAux [] content

/-- Python `statistics.mean`: arithmetic mean, sum divided by count. -/
def pyMean (xs : List ℚ) : ℚ := xs.sum / (xs.length : ℚ)

/-- Python builtin `min` over a nonempty iterable (the empty case never
arises: every group iterated by `analyze_results` is nonempty). -/
def pyMin : List ℚ → ℚ
  | [] => 0
  | x :: xs => xs.foldl min x

/-- Python builtin `max` over a nonempty iterable. -/
def pyMax : List ℚ → ℚ
  | [] => 0
  | x :: xs => xs.foldl max x

/-- Python `statistics.median`: sort the data; for odd length take the
middle element, for even positive length the average of the two middle
elements (the empty case never arises for the nonempty groups here). -/
def pyMedian (xs : List ℚ) : ℚ :=
  let s := xs.insertionSort (· ≤ ·)
  if xs.length = 0 then 0
  else if xs.length % 2 = 1 then s.getD (xs.length / 2) 0
  else (s.getD (xs.length / 2 - 1) 0 + s.getD (xs.length / 2) 0) / 2

/-- Bessel-corrected sample variance: the square of Python
`statistics.stdev`, the sum of squared deviations from the mean divided by
`n - 1`. -/
def sampleVariance (xs : List ℚ) : ℚ :=
  ((xs.map (fun x => (x - pyMean xs) ^ 2)).sum) / ((xs.length : ℚ) - 1)

/-- AggregatedMetrics for one context-length group: the metrics dict built
at `analyze_results.py` lines 57-88.  Among the tracked metrics only
`ttft` carries a standard deviation, mirroring the code, and it is stored
squared (see the header comment). -/
structure Metrics where
  count : ℕ
  ttft_mean : ℚ
  ttft_min : ℚ
  ttft_max : ℚ
  ttft_median : ℚ
  ttft_stdev_sq : ℚ
  latency_mean : ℚ
  latency_min : ℚ
  latency_max : ℚ
  latency_median : ℚ
  throughput_mean : ℚ
  throughput_min : ℚ
  throughput_max : ℚ
  throughput_median : ℚ
  gpu_mean : ℚ
  gpu_max : ℚ
  prompt_tokens_mean : ℚ
  output_tokens_mean : ℚ
  deriving Repr, DecidableEq

/-- Values of a required field over a group: `analyze_results` reads
`r["ttft"]`, `r["total_latency"]` and `r["decode_throughput"]` by
subscript, so the values are the present ones, in group order, and a
record in which the key is absent raises `KeyError`. -/
def requiredVals (f : Record → Option ℚ) (group : List Record) : List ℚ :=
  group.filterMap f

/-- Whether every record of a group carries the three subscript-accessed
fields; when this fails the metrics dict construction raises `KeyError`. -/
def hasRequiredFields (group : List Record) : Prop :=
  ∀ r ∈ group, r.ttft.isSome ∧ r.total_latency.isSome ∧ r.decode_throughput.isSome

instance (group : List Record) : Decidable (hasRequiredFields group) :=
  List.decidableBAll _ group

/-- Metrics dict of `analyze_results.py` lines 57-88 for one group.
`r.get("peak_gpu_memory_gb", 0)`, `r.get("prompt_tokens", 0)` and
`r.get("output_tokens", 0)` default an absent key to 0; the
subscript-accessed fields raise `KeyError` when absent, modelled by
`Except.error ()`.  The standard deviation of `ttft` is
`statistics.stdev(...) if len > 1 else 0.0`; its square is stored. -/
def metricsOf (group : List Record) : Except Unit Metrics :=
  if hasRequiredFields group then
    let ttfts := requiredVals Record.ttft group
    let lats := requiredVals Record.total_latency group
    let tputs := requiredVals Record.decode_throughput group
    let gpus := group.map (fun r => r.peak_gpu_memory_gb.getD 0)
    let pts := group.map (fun r => r.prompt_tokens.getD 0)
    let ots := group.map (fun r => r.output_tokens.getD 0)
    .ok
      { count := group.length
        ttft_mean := pyMean ttfts
        ttft_min := pyMin ttfts
        ttft_max := pyMax ttfts
        ttft_median := pyMedian ttfts
        ttft_stdev_sq := if group.length > 1 then sampleVariance ttfts else 0
        latency_mean := pyMean lats
        latency_min := pyMin lats
        latency_max := pyMax lats
        latency_median := pyMedian lats
        throughput_mean := pyMean tputs
        throughput_min := pyMin tputs
        throughput_max := pyMax tputs
        throughput_median := pyMedian tputs
        gpu_mean := pyMean gpus
        gpu_max := pyMax gpus
        prompt_tokens_mean := pyMean pts
        output_tokens_mean := pyMean ots }
  else .error ()

/-- Group of a key: `grouped[ctx_len]` after the loop at
`analyze_results.py` lines 44-49 holds exactly the records whose
`context_length` equals the key, in input order. -/
def groupOf (results : List Record) (k : Int) : List Record :=
  results.filter (fun r => r.context_length = some k)

/-- Keys iterated by `sorted(grouped.items())`: the distinct
`context_length` values present in the input (records whose key is absent
are not grouped), in ascending order. -/
def sortedKeys (results : List Record) : List Int :=
  ((results.filterMap Record.context_length).dedup).insertionSort (· ≤ ·)

/-- Loop of `analyze_results` over the sorted keys: build the metrics
dict of each group in ascending key order; a `KeyError` raised while
building any metrics dict aborts the whole call (`Except.error`). -/
def analyzeKeys (results : List Record) : List Int → Except Unit (List (Int × Metrics))
  | [] => .ok []
  | k :: ks =>
    match metricsOf (groupOf results k) with
    | .error e => .error e
    | .ok m =>
      match analyzeKeys results ks with
      | .error e => .error e
      | .ok rest => .ok ((k, m) :: rest)

/-- Model of `analyze_results` (`analyze_results.py` lines 42-92): group
the records by `context_length` (records without the key are skipped by
the `is not None` guard), then, in ascending key order, build the metrics
dict of each group.  The `if not ctx_results: continue` guard of the code
is dead (every key of `grouped` owns at least one record) and is not
modelled. -/
def analyze_results (results : List Record) : Except Unit (List (Int × Metrics)) :=
  analyzeKeys results (sortedKeys results)

/-- Row of the TTFT table (`print_summary_table`, lines 107-115): context
length, sample count, mean, min, max, median, standard deviation
(squared, see the header comment). -/
def ttftTableRow (km : Int × Metrics) : List ℚ :=
  [(km.1 : ℚ), (km.2.count : ℚ), km.2.ttft_mean, km.2.ttft_min, km.2.ttft_max,
    km.2.ttft_median, km.2.ttft_stdev_sq]

/-- Row of the decode-throughput table (lines 125-132). -/
def throughputTableRow (km : Int × Metrics) : List ℚ :=
  [(km.1 : ℚ), (km.2.count : ℚ), km.2.throughput_mean, km.2.throughput_min,
    km.2.throughput_max, km.2.throughput_median]

/-- Row of the total-latency table (lines 142-149). -/
def latencyTableRow (km : Int × Metrics) : List ℚ :=
  [(km.1 : ℚ), (km.2.count : ℚ), km.2.latency_mean, km.2.latency_min,
    km.2.latency_max, km.2.latency_median]

/-- Row of the GPU-memory table (lines 159-163). -/
def gpuTableRow (km : Int × Metrics) : List ℚ :=
  [(km.1 : ℚ), km.2.gpu_mean, km.2.gpu_max]

/-- Underlying numeric values of the four tables printed by
`print_summary_table` (the tables render these values with truncated
display precision; the truncation is presentation only).  The code
iterates `sorted(analysis.keys())`; the association list produced by
`analyze_results` is already in that ascending key order. -/
def print_summary_table (analysis : List (Int × Metrics)) :
    List (List ℚ) × List (List ℚ) × List (List ℚ) × List (List ℚ) :=
  (analysis.map ttftTableRow, analysis.map throughputTableRow,
    analysis.map latencyTableRow, analysis.map gpuTableRow)

/-- Header row written by `export_to_csv` (lines 174-180). -/
def csvHeader : List String :=
  ["context_length", "samples",
    "ttft_mean", "ttft_min", "ttft_max", "ttft_median", "ttft_stdev",
    "throughput_mean", "throughput_min", "throughput_max", "throughput_median",
    "latency_mean", "latency_min", "latency_max", "latency_median",
    "gpu_memory_mean", "gpu_memory_peak"]

/-- Data row written by `export_to_csv` (lines 185-191) for one group, at
full precision (the cells are the exact values; `ttft_stdev` is stored
squared, see the header comment). -/
def csvDataRow (km : Int × Metrics) : List ℚ :=
  [(km.1 : ℚ), (km.2.count : ℚ),
    km.2.ttft_mean, km.2.ttft_min, km.2.ttft_max, km.2.ttft_median,
    km.2.ttft_stdev_sq,
    km.2.throughput_mean, km.2.throughput_min, km.2.throughput_max,
    km.2.throughput_median,
    km.2.latency_mean, km.2.latency_min, km.2.latency_max, km.2.latency_median,
    km.2.gpu_mean, km.2.gpu_max]

/-- Model of `export_to_csv` (lines 166-191): the header row followed by
one data row per group, in the order of the analysis; the code iterates
`sorted(analysis.keys())`, the ascending order `analyze_results` already
emits. -/
def export_to_csv (analysis : List (Int × Metrics)) :
    List String × List (List ℚ) :=
  (csvHeader, analysis.map csvDataRow)

/-- Outcome of one invocation of `main` in `analyze_results.py`:
`exitError` is a logged error message followed by `sys.exit(1)`;
`crashed` is an uncaught exception (the `KeyError` of a record missing a
subscript-accessed field); `success` carries the table values (none when
`--quiet`) and the CSV content (none when no `--output`). -/
inductive MainOutcome where
  | exitError (code : ℕ) (msg : String)
  | crashed
  | success
      (table : Option (List (List ℚ) × List (List ℚ) × List (List ℚ) × List (List ℚ)))
      (csv : Option (List String × List (List ℚ)))
  deriving Repr, DecidableEq

/-- Control flow of `main` (`analyze_results.py` lines 196-242) after the
file-existence check, over the lines of the results file: load, hard stop
with exit status 1 when no record parsed, analyze, hard stop with exit
status 1 when no group was formed, then table unless quiet and CSV when
requested. -/
def mainRun (parse : List Char → Option Record) (lines : List (List Char))
    (writeCsv : Bool) (quiet : Bool) : MainOutcome :=
  let results := (load_results parse lines).1
  if results = [] then .exitError 1 "No valid results found in file"
  else
    match analyze_results results with
    | .error _ => .crashed
    | .ok analysis =>
      if analysis = [] then .exitError 1 "No valid analysis data"
      else
        .success (if quiet then none else some (print_summary_table analysis))
          (if writeCsv then some (export_to_csv analysis) else none)

/-- Replacement of the three `.get`-accessed keys by their explicit
defaults: `fillOptional r` carries `some (getD 0)` exactly where
`analyze_results` reads `r.get("peak_gpu_memory_gb", 0)`,
`r.get("prompt_tokens", 0)` and `r.get("output_tokens", 0)`. -/
def fillOptional (r : Record) : Record :=
  { r with
    peak_gpu_memory_gb := some (r.peak_gpu_memory_gb.getD 0)
    prompt_tokens := some (r.prompt_tokens.getD 0)
    output_tokens := some (r.output_tokens.getD 0) }

/-- Concrete one-record store used by several witnesses below. -/
def wrec1 : Record :=
  { context_length := some 1, sample_id := none, prompt_tokens := some 4,
    output_tokens := some 5, ttft := some 1, total_latency := some 2,
    decode_throughput := some 3, peak_gpu_memory_gb := some 6, timestamp := none }

/-- Aggregate of the one-record store `[wrec1]`. -/
def wmet1 : Metrics :=
  { count := 1
    ttft_mean := 1, ttft_min := 1, ttft_max := 1, ttft_median := 1
    ttft_stdev_sq := 0
    latency_mean := 2, latency_min := 2, latency_max := 2, latency_median := 2
    throughput_mean := 3, throughput_min := 3, throughput_max := 3
    throughput_median := 3
    gpu_mean := 6, gpu_max := 6
    prompt_tokens_mean := 4, output_tokens_mean := 5 }

/-- Concrete record with a `context_length` but no `total_latency`, used
by the C4 witness: it is grouped, and its missing subscript-accessed
field makes the aggregation raise. -/
def wrecNoLat : Record :=
  { context_length := some 2, sample_id := none, prompt_tokens := none,
    output_tokens := none, ttft := some 1, total_latency := none,
    decode_throughput := some 3, peak_gpu_memory_gb := none, timestamp := none }

lemma foldl_min_le_init (l : List ℚ) : ∀ a : ℚ, l.foldl min a ≤ a := by
  induction l with
  | nil => intro a; simp
  | cons c l ih => intro a; exact le_trans (ih (min a c)) (min_le_left a c)

lemma foldl_min_le_mem (l : List ℚ) : ∀ (a x : ℚ), x ∈ l → l.foldl min a ≤ x := by
  induction l with
  | nil => intro a x hx; cases hx
  | cons c l ih =>
    intro a x hx
    rcases List.mem_cons.mp hx with h | h
    · subst h
      exact le_trans (foldl_min_le_init l (min a x)) (min_le_right a x)
    · exact ih (min a c) x h

lemma foldl_min_mem (l : List ℚ) : ∀ a : ℚ, l.foldl min a = a ∨ l.foldl min a ∈ l := by
  induction l with
  | nil => intro a; left; rfl
  | cons c l ih =>
    intro a
    rcases ih (min a c) with h | h
    · rcases min_choice a c with hm | hm
      · left; rw [List.foldl_cons, h, hm]
      · right; rw [List.foldl_cons, h, hm]; exact List.mem_cons_self c l
    · right; exact List.mem_cons_of_mem c h

lemma pyMin_mem : ∀ {l : List ℚ}, l ≠ [] → pyMin l ∈ l
  | [], h => absurd rfl h
  | x :: xs, _ => by
    show xs.foldl min x ∈ x :: xs
    rcases foldl_min_mem xs x with h1 | h1
    · rw [h1]; exact List.mem_cons_self x xs
    · exact List.mem_cons_of_mem x h1

lemma pyMin_le : ∀ {l : List ℚ} {x : ℚ}, x ∈ l → pyMin l ≤ x
  | [], _, hx => absurd hx (List.not_mem_nil _)
  | c :: cs, x, hx => by
    show cs.foldl min c ≤ x
    rcases List.mem_cons.mp hx with h | h
    · subst h; exact foldl_min_le_init cs x
    · exact foldl_min_le_mem cs c x h

lemma pyMin_perm {l₁ l₂ : List ℚ} (h : l₁.Perm l₂) : pyMin l₁ = pyMin l₂ := by
  rcases eq_or_ne l₁ [] with h1 | h1
  · subst h1
    rw [h.symm.eq_nil]
  · have h2 : l₂ ≠ [] := fun e => h1 (by subst e; exact h.eq_nil)
    exact le_antisymm (pyMin_le (h.mem_iff.mpr (pyMin_mem h2)))
      (pyMin_le (h.mem_iff.mp (pyMin_mem h1)))

lemma foldl_max_ge_init (l : List ℚ) : ∀ a : ℚ, a ≤ l.foldl max a := by
  induction l with
  | nil => intro a; simp
  | cons c l ih => intro a; exact le_trans (le_max_left a c) (ih (max a c))

lemma foldl_max_ge_mem (l : List ℚ) : ∀ (a x : ℚ), x ∈ l → x ≤ l.foldl max a := by
  induction l with
  | nil => intro a x hx; cases hx
  | cons c l ih =>
    intro a x hx
    rcases List.mem_cons.mp hx with h | h
    · subst h
      exact le_trans (le_max_right a x) (foldl_max_ge_init l (max a x))
    · exact ih (max a c) x h

lemma foldl_max_mem (l : List ℚ) : ∀ a : ℚ, l.foldl max a = a ∨ l.foldl max a ∈ l := by
  induction l with
  | nil => intro a; left; rfl
  | cons c l ih =>
    intro a
    rcases ih (max a c) with h | h
    · rcases max_choice a c with hm | hm
      · left; rw [List.foldl_cons, h, hm]
      · right; rw [List.foldl_cons, h, hm]; exact List.mem_cons_self c l
    · right; exact List.mem_cons_of_mem c h

lemma pyMax_mem : ∀ {l : List ℚ}, l ≠ [] → pyMax l ∈ l
  | [], h => absurd rfl h
  | x :: xs, _ => by
    show xs.foldl max x ∈ x :: xs
    rcases foldl_max_mem xs x with h1 | h1
    · rw [h1]; exact List.mem_cons_self x xs
    · exact List.mem_cons_of_mem x h1

lemma pyMax_ge : ∀ {l : List ℚ} {x : ℚ}, x ∈ l → x ≤ pyMax l
  | [], _, hx => absurd hx (List.not_mem_nil _)
  | c :: cs, x, hx => by
    show x ≤ cs.foldl max c
    rcases List.mem_cons.mp hx with h | h
    · subst h; exact foldl_max_ge_init cs x
    · exact foldl_max_ge_mem cs c x h

lemma pyMax_perm {l₁ l₂ : List ℚ} (h : l₁.Perm l₂) : pyMax l₁ = pyMax l₂ := by
  rcases eq_or_ne l₁ [] with h1 | h1
  · subst h1
    rw [h.symm.eq_nil]
  · have h2 : l₂ ≠ [] := fun e => h1 (by subst e; exact h.eq_nil)
    exact le_antisymm (pyMax_ge (h.mem_iff.mp (pyMax_mem h1)))
      (pyMax_ge (h.mem_iff.mpr (pyMax_mem h2)))

lemma insertionSort_eq_of_perm {α : Type} [LinearOrder α] {l₁ l₂ : List α}
    (h : l₁.Perm l₂) :
    l₁.insertionSort (· ≤ ·) = l₂.insertionSort (· ≤ ·) :=
  List.eq_of_perm_of_sorted
    ((List.perm_insertionSort (· ≤ ·) l₁).trans
      (h.trans (List.perm_insertionSort (· ≤ ·) l₂).symm))
    (List.sorted_insertionSort _ _) (List.sorted_insertionSort _ _)

lemma pyMean_perm {l₁ l₂ : List ℚ} (h : l₁.Perm l₂) : pyMean l₁ = pyMean l₂ := by
  unfold pyMean
  rw [h.sum_eq, h.length_eq]

lemma pyMedian_perm {l₁ l₂ : List ℚ} (h : l₁.Perm l₂) : pyMedian l₁ = pyMedian l₂ := by
  unfold pyMedian
  rw [insertionSort_eq_of_perm h, h.length_eq]

lemma sampleVariance_perm {l₁ l₂ : List ℚ} (h : l₁.Perm l₂) :
    sampleVariance l₁ = sampleVariance l₂ := by
  unfold sampleVariance
  simp only [pyMean_perm h, h.length_eq]
  rw [(h.map (fun x => (x - pyMean l₂) ^ 2)).sum_eq]

lemma hasRequiredFields_perm {g₁ g₂ : List Record} (h : g₁.Perm g₂) :
    hasRequiredFields g₁ ↔ hasRequiredFields g₂ :=
  ⟨fun hh r hr => hh r (h.mem_iff.mpr hr), fun hh r hr => hh r (h.mem_iff.mp hr)⟩

lemma metricsOf_perm {g₁ g₂ : List Record} (h : g₁.Perm g₂) :
    metricsOf g₁ = metricsOf g₂ := by
  have hT := h.filterMap Record.ttft
  have hL := h.filterMap Record.total_latency
  have hD := h.filterMap Record.decode_throughput
  have hG := h.map (fun r => r.peak_gpu_memory_gb.getD 0)
  have hP := h.map (fun r => r.prompt_tokens.getD 0)
  have hO := h.map (fun r => r.output_tokens.getD 0)
  simp only [metricsOf, requiredVals]
  by_cases hc : hasRequiredFields g₁
  · rw [if_pos hc, if_pos ((hasRequiredFields_perm h).mp hc)]
    rw [pyMean_perm hT, pyMin_perm hT, pyMax_perm hT, pyMedian_perm hT,
      sampleVariance_perm hT, pyMean_perm hL, pyMin_perm hL, pyMax_perm hL,
      pyMedian_perm hL, pyMean_perm hD, pyMin_perm hD, pyMax_perm hD,
      pyMedian_perm hD, pyMean_perm hG, pyMax_perm hG, pyMean_perm hP,
      pyMean_perm hO, h.length_eq]
  · rw [if_neg hc, if_neg (fun hc2 => hc ((hasRequiredFields_perm h).mpr hc2))]

lemma analyzeKeys_congr {r₁ r₂ : List Record} (ks : List Int)
    (h : ∀ k ∈ ks, metricsOf (groupOf r₁ k) = metricsOf (groupOf r₂ k)) :
    analyzeKeys r₁ ks = analyzeKeys r₂ ks := by
  induction ks with
  | nil => rfl
  | cons k ks ih =>
    unfold analyzeKeys
    rw [h k (List.mem_cons_self k ks), ih (fun k2 hk => h k2 (List.mem_cons_of_mem _ hk))]

lemma sortedKeys_perm {l₁ l₂ : List Record} (h : l₁.Perm l₂) :
    sortedKeys l₁ = sortedKeys l₂ := by
  unfold sortedKeys
  exact insertionSort_eq_of_perm ((h.filterMap Record.context_length).dedup)

lemma analyze_results_perm {l₁ l₂ : List Record} (h : l₁.Perm l₂) :
    analyze_results l₁ = analyze_results l₂ := by
  unfold analyze_results
  rw [sortedKeys_perm h]
  exact analyzeKeys_congr _ (fun k _ => metricsOf_perm (h.filter _))

lemma filterMap_context_filter (results : List Record) :
    (results.filter (fun r => r.context_length.isSome)).filterMap Record.context_length
      = results.filterMap Record.context_length := by
  induction results with
  | nil => rfl
  | cons r rest ih =>
    cases hr : r.context_length with
    | none => simp [List.filter_cons, List.filterMap_cons, hr, ih]
    | some k => simp [List.filter_cons, List.filterMap_cons, hr, ih]

lemma groupOf_filter (results : List Record) (k : Int) :
    groupOf (results.filter (fun r => r.context_length.isSome)) k = groupOf results k := by
  unfold groupOf
  induction results with
  | nil => rfl
  | cons r rest ih =>
    cases hr : r.context_length with
    | none => simp [List.filter_cons, hr, ih]
    | some j => simp [List.filter_cons, hr, ih]

lemma analyze_results_filter (results : List Record) :
    analyze_results (results.filter (fun r => r.context_length.isSome))
      = analyze_results results := by
  unfold analyze_results
  have hk : sortedKeys (results.filter (fun r => r.context_length.isSome))
      = sortedKeys results := by
    unfold sortedKeys
    rw [filterMap_context_filter]
  rw [hk]
  exact analyzeKeys_congr _ (fun k _ => by rw [groupOf_filter])

lemma analyzeKeys_ok_fst {results : List Record} {ks : List Int}
    {a : List (Int × Metrics)} (h : analyzeKeys results ks = .ok a) :
    a.map Prod.fst = ks := by
  induction ks generalizing a with
  | nil =>
    unfold analyzeKeys at h
    cases h
    rfl
  | cons k ks ih =>
    unfold analyzeKeys at h
    cases hm : metricsOf (groupOf results k) with
    | error e => rw [hm] at h; cases h
    | ok m =>
      rw [hm] at h
      cases hr : analyzeKeys results ks with
      | error e => rw [hr] at h; cases h
      | ok rest =>
        rw [hr] at h
        cases h
        simp [ih hr]

lemma analyzeKeys_ok_mem {results : List Record} {ks : List Int}
    {a : List (Int × Metrics)} (h : analyzeKeys results ks = .ok a) :
    ∀ km ∈ a, metricsOf (groupOf results km.1) = .ok km.2 := by
  induction ks generalizing a with
  | nil =>
    unfold analyzeKeys at h
    cases h
    intro km hkm
    cases hkm
  | cons k ks ih =>
    unfold analyzeKeys at h
    cases hm : metricsOf (groupOf results k) with
    | error e => rw [hm] at h; cases h
    | ok m =>
      rw [hm] at h
      cases hr : analyzeKeys results ks with
      | error e => rw [hr] at h; cases h
      | ok rest =>
        rw [hr] at h
        cases h
        intro km hkm
        rcases List.mem_cons.mp hkm with h1 | h1
        · subst h1; exact hm
        · exact ih hr km h1

lemma sortedKeys_sorted (results : List Record) :
    (sortedKeys results).Sorted (· < ·) := by
  have hs : (sortedKeys results).Sorted (· ≤ ·) := List.sorted_insertionSort _ _
  have hn : (sortedKeys results).Nodup :=
    (List.perm_insertionSort _ _).nodup_iff.mpr (List.nodup_dedup _)
  exact (hs.and hn).imp (fun hab => lt_of_le_of_ne hab.1 hab.2)

lemma analyze_results_ok_sorted {results : List Record} {a : List (Int × Metrics)}
    (h : analyze_results results = .ok a) : (a.map Prod.fst).Sorted (· < ·) := by
  unfold analyze_results at h
  rw [analyzeKeys_ok_fst h]
  exact sortedKeys_sorted results

lemma loadAux_fst_eq (parse : List Char → Option Record) :
    ∀ (n : ℕ) (ls : List (List Char)),
    (loadAux parse n ls).1
      = ls.filterMap (fun l => if stripChars l = [] then none else parse (stripChars l)) := by
  intro n ls
  induction ls generalizing n with
  | nil => rfl
  | cons l ls ih =>
    by_cases hs : stripChars l = []
    · simp only [loadAux, hs, if_pos, List.filterMap_cons, if_true, reduceIte]
      exact ih (n + 1)
    · cases hp : parse (stripChars l) with
      | none => simp [loadAux, hs, hp, List.filterMap_cons, ih (n + 1)]
      | some r => simp [loadAux, hs, hp, List.filterMap_cons, ih (n + 1)]

lemma loadAux_snd_eq (parse : List Char → Option Record) :
    ∀ (n : ℕ) (ls : List (List Char)),
    (loadAux parse n ls).2
      = (List.enumFrom n ls).filterMap (fun p =>
          if stripChars p.2 = [] then none
          else match parse (stripChars p.2) with
            | some _ => none
            | none => some p.1) := by
  intro n ls
  induction ls generalizing n with
  | nil => rfl
  | cons l ls ih =>
    by_cases hs : stripChars l = []
    · simp only [loadAux, hs, List.enumFrom, List.filterMap_cons, if_true, reduceIte]
      exact ih (n + 1)
    · cases hp : parse (stripChars l) with
      | none => simp [loadAux, hs, hp, List.enumFrom, List.filterMap_cons, ih (n + 1)]
      | some r => simp [loadAux, hs, hp, List.enumFrom, List.filterMap_cons, ih (n + 1)]

lemma loadAux_fst_indep (parse : List Char → Option Record) (n m : ℕ)
    (ls : List (List Char)) : (loadAux parse n ls).1 = (loadAux parse m ls).1 := by
  rw [loadAux_fst_eq, loadAux_fst_eq]

lemma loadAux_snd_length_indep (parse : List Char → Option Record) :
    ∀ (n m : ℕ) (ls : List (List Char)),
    (loadAux parse n ls).2.length = (loadAux parse m ls).2.length := by
  intro n m ls
  induction ls generalizing n m with
  | nil => rfl
  | cons l ls ih =>
    by_cases hs : stripChars l = []
    · simp only [loadAux, hs, if_true, reduceIte]
      exact ih (n + 1) (m + 1)
    · cases hp : parse (stripChars l) with
      | none => simp [loadAux, hs, hp, ih (n + 1) (m + 1)]
      | some r => simp [loadAux, hs, hp, ih (n + 1) (m + 1)]

lemma stripChars_append_newline (l : List Char) :
    stripChars (l ++ ['\n']) = stripChars l := by
  unfold stripChars
  by_cases h : l.dropWhile Char.isWhitespace = []
  · rw [List.dropWhile_append, h]
    simp
  · have h2 : (List.dropWhile Char.isWhitespace l).isEmpty = false := by
      simpa [List.isEmpty_iff] using h
    rw [List.dropWhile_append, h2]
    simp [List.reverse_append, List.dropWhile_cons]

lemma loadAux_cons_congr (parse : List Char → Option Record) {L₁ L₂ : List (List Char)}
    (l : List Char) (n : ℕ)
    (h : loadAux parse (n + 1) L₁ = loadAux parse (n + 1) L₂) :
    loadAux parse n (l :: L₁) = loadAux parse n (l :: L₂) := by
  unfold loadAux
  rw [h]

lemma loadAux_head_strip_congr (parse : List Char → Option Record) {l₁ l₂ : List Char}
    (h : stripChars l₁ = stripChars l₂) (n : ℕ) (L : List (List Char)) :
    loadAux parse n (l₁ :: L) = loadAux parse n (l₂ :: L) := by
  unfold loadAux
  rw [h]

lemma loadAux_split_newline (parse : List Char → Option Record) (cs : List Char) :
    ∀ (acc : List Char) (n : ℕ),
    loadAux parse n (splitLinesAux acc (cs ++ ['\n']))
      = loadAux parse n (splitLinesAux acc cs) := by
  induction cs with
  | nil =>
    intro acc n
    by_cases ha : acc = []
    · subst ha
      have hn : stripChars ['\n'] = [] := by decide
      simp [splitLinesAux, loadAux, hn]
    · have e1 : splitLinesAux acc ['\n'] = [acc.reverse ++ ['\n']] := by
        simp [splitLinesAux]
      have e2 : splitLinesAux acc [] = [acc.reverse] := by
        simp [splitLinesAux, ha]
      rw [List.nil_append, e1, e2]
      exact loadAux_head_strip_congr parse (stripChars_append_newline acc.reverse) n []
  | cons c cs ih =>
    intro acc n
    by_cases hc : c = '\n'
    · subst hc
      have e : ∀ l, splitLinesAux acc ('\n' :: l)
          = (acc.reverse ++ ['\n']) :: splitLinesAux [] l := fun l => by
        simp [splitLinesAux]
      rw [List.cons_append, e, e]
      exact loadAux_cons_congr parse _ n (ih [] (n + 1))
    · have e : ∀ l, splitLinesAux acc (c :: l) = splitLinesAux (c :: acc) l := fun l => by
        simp [splitLinesAux, hc]
      rw [List.cons_append, e, e]
      exact ih (c :: acc) n

lemma loadAux_insert_blank (parse : List Char → Option Record) {b : List Char}
    (hb : stripChars b = []) :
    ∀ (l₁ : List (List Char)) (n : ℕ) (l₂ : List (List Char)),
    (loadAux parse n (l₁ ++ b :: l₂)).1 = (loadAux parse n (l₁ ++ l₂)).1 ∧
    (loadAux parse n (l₁ ++ b :: l₂)).2.length = (loadAux parse n (l₁ ++ l₂)).2.length := by
  intro l₁
  induction l₁ with
  | nil =>
    intro n l₂
    constructor
    · simp only [List.nil_append, loadAux, hb]
      simp only [reduceIte]
      exact loadAux_fst_indep parse (n + 1) n l₂
    · simp only [List.nil_append, loadAux, hb]
      simp only [reduceIte]
      exact loadAux_snd_length_indep parse (n + 1) n l₂
  | cons l l₁ ih =>
    intro n l₂
    have ihn := ih (n + 1) l₂
    by_cases hs : stripChars l = []
    · simp only [List.cons_append, loadAux, hs]
      simp only [reduceIte]
      exact ihn
    · cases hp : parse (stripChars l) with
      | some r =>
        simp only [List.cons_append, loadAux, hs, hp]
        simp [hs, ihn.1, ihn.2]
      | none =>
        simp only [List.cons_append, loadAux, hs, hp]
        simp [hs, ihn.1, ihn.2]

lemma loadAux_insert_malformed (parse : List Char → Option Record) {b : List Char}
    (hb : stripChars b ≠ []) (hpb : parse (stripChars b) = none) :
    ∀ (l₁ : List (List Char)) (n : ℕ) (l₂ : List (List Char)),
    (loadAux parse n (l₁ ++ b :: l₂)).1 = (loadAux parse n (l₁ ++ l₂)).1 ∧
    (loadAux parse n (l₁ ++ b :: l₂)).2.length
      = (loadAux parse n (l₁ ++ l₂)).2.length + 1 := by
  intro l₁
  induction l₁ with
  | nil =>
    intro n l₂
    constructor
    · simp only [List.nil_append, loadAux, hpb]
      simp [hb]
      exact loadAux_fst_indep parse (n + 1) n l₂
    · simp only [List.nil_append, loadAux, hpb]
      simp [hb]
      exact loadAux_snd_length_indep parse (n + 1) n l₂
  | cons l l₁ ih =>
    intro n l₂
    have ihn := ih (n + 1) l₂
    by_cases hs : stripChars l = []
    · simp only [List.cons_append, loadAux, hs]
      simp only [reduceIte]
      exact ihn
    · cases hp : parse (stripChars l) with
      | some r =>
        simp only [List.cons_append, loadAux, hs, hp]
        simp [hs, ihn.1, ihn.2]
      | none =>
        simp only [List.cons_append, loadAux, hs, hp]
        simp [hs, ihn.1, ihn.2]

lemma filterMap_context_map_fill (results : List Record) :
    (results.map fillOptional).filterMap Record.context_length
      = results.filterMap Record.context_length := by
  rw [List.filterMap_map]
  rfl

lemma groupOf_map_fill (results : List Record) (k : Int) :
    groupOf (results.map fillOptional) k = (groupOf results k).map fillOptional := by
  unfold groupOf
  rw [List.filter_map]
  rfl

lemma metricsOf_map_fill (g : List Record) :
    metricsOf (g.map fillOptional) = metricsOf g := by
  have hreq : hasRequiredFields (g.map fillOptional) ↔ hasRequiredFields g := by
    unfold hasRequiredFields
    constructor
    · intro hh r hr
      exact hh (fillOptional r) (List.mem_map_of_mem _ hr)
    · intro hh r hr
      rcases List.mem_map.mp hr with ⟨r0, hr0, rfl⟩
      exact hh r0 hr0
  simp only [metricsOf, requiredVals]
  by_cases hc : hasRequiredFields g
  · rw [if_pos (hreq.mpr hc), if_pos hc]
    have h1 : (g.map fillOptional).filterMap Record.ttft = g.filterMap Record.ttft := by
      rw [List.filterMap_map]; rfl
    have h2 : (g.map fillOptional).filterMap Record.total_latency
        = g.filterMap Record.total_latency := by
      rw [List.filterMap_map]; rfl
    have h3 : (g.map fillOptional).filterMap Record.decode_throughput
        = g.filterMap Record.decode_throughput := by
      rw [List.filterMap_map]; rfl
    have h4 : (g.map fillOptional).map (fun r => r.peak_gpu_memory_gb.getD 0)
        = g.map (fun r => r.peak_gpu_memory_gb.getD 0) := by
      rw [List.map_map]; rfl
    have h5 : (g.map fillOptional).map (fun r => r.prompt_tokens.getD 0)
        = g.map (fun r => r.prompt_tokens.getD 0) := by
      rw [List.map_map]; rfl
    have h6 : (g.map fillOptional).map (fun r => r.output_tokens.getD 0)
        = g.map (fun r => r.output_tokens.getD 0) := by
      rw [List.map_map]; rfl
    rw [h1, h2, h3, h4, h5, h6, List.length_map]
  · rw [if_neg (fun h => hc (hreq.mp h)), if_neg hc]

lemma analyze_results_map_fill (results : List Record) :
    analyze_results (results.map fillOptional) = analyze_results results := by
  unfold analyze_results
  have hk : sortedKeys (results.map fillOptional) = sortedKeys results := by
    unfold sortedKeys
    rw [filterMap_context_map_fill]
  rw [hk]
  refine analyzeKeys_congr _ (fun k _ => ?_)
  rw [groupOf_map_fill, metricsOf_map_fill]

lemma analyze_single_missing_ttft (r : Record) (k : Int)
    (hk : r.context_length = some k) (ht : r.ttft = none) :
    analyze_results [r] = .error () := by
  have h1 : sortedKeys [r] = [k] := by
    unfold sortedKeys
    simp [List.filterMap_cons, hk, List.dedup]
  have h2 : groupOf [r] k = [r] := by
    unfold groupOf
    simp [List.filter_cons, hk]
  have hreq : ¬ hasRequiredFields [r] := by
    intro hreq
    have h5 := (hreq r (List.mem_cons_self r [])).1
    rw [ht] at h5
    simp at h5
  have h3 : metricsOf [r] = .error () := by
    unfold metricsOf
    rw [if_neg hreq]
  unfold analyze_results
  rw [h1]
  unfold analyzeKeys
  rw [h2, h3]

/-- C1: for every measured request the recorded `ttft` equals
`total_latency / (output_tokens + 1)` where `output_tokens` is the number
of generated token ids; the denominator is never zero, and when
`output_tokens = 0` the recorded `ttft` equals `total_latency`. -/
theorem claim_C1_ttft_formula (o : EngineObs) :
    (measureRecord o).ttft
      = some (o.total_latency / ((o.num_output_tokens : ℚ) + 1)) ∧
    (o.num_output_tokens = 0 → (measureRecord o).ttft = some o.total_latency) := by
  constructor
  · rfl
  · intro h
    simp [measureRecord, ttftOf, h]

/-- Witness for C1 at the request of the spec example with zero output
tokens and `total_latency = 1`: the recorded `ttft` is `1`. -/
theorem claim_C1_ttft_formula_witness :
    (measureRecord ⟨2048, 0, 100, 0, 1, 3, 0⟩).ttft = some 1 :=
  (claim_C1_ttft_formula ⟨2048, 0, 100, 0, 1, 3, 0⟩).2 rfl

/-- C2: the recorded `decode_throughput` equals
`output_tokens / decode_time` when `decode_time > 0` and `0` otherwise,
with `decode_time = total_latency - ttft`; and for `total_latency ≥ 0`
(output token counts are naturals, hence nonnegative) both the
approximated `ttft` and the `decode_throughput` are nonnegative. -/
theorem claim_C2_decode_throughput (o : EngineObs) :
    ((decodeTimeOf o.total_latency o.num_output_tokens > 0 →
        (measureRecord o).decode_throughput
          = some ((o.num_output_tokens : ℚ)
              / decodeTimeOf o.total_latency o.num_output_tokens)) ∧
      (¬ decodeTimeOf o.total_latency o.num_output_tokens > 0 →
        (measureRecord o).decode_throughput = some 0)) ∧
    (0 ≤ o.total_latency →
      0 ≤ ttftOf o.total_latency o.num_output_tokens ∧
      0 ≤ decodeThroughputOf o.total_latency o.num_output_tokens) := by
  refine ⟨⟨fun h => ?_, fun h => ?_⟩, fun hl => ⟨?_, ?_⟩⟩
  · simp [measureRecord, decodeThroughputOf, h]
  · simp [measureRecord, decodeThroughputOf, h]
  · unfold ttftOf
    apply div_nonneg hl
    positivity
  · unfold decodeThroughputOf
    split
    · next hdt => exact div_nonneg (Nat.cast_nonneg _) (le_of_lt hdt)
    · exact le_refl 0

/-- Witness for C2 at the spec example `total_latency = 2`,
`output_tokens = 9`: here `decode_time = 2 - 2/10 = 9/5 > 0`, so the
positive branch applies, and both nonnegativity bounds hold. -/
theorem claim_C2_decode_throughput_witness :
    (measureRecord ⟨2048, 0, 100, 9, 2, 3, 0⟩).decode_throughput
      = some ((9 : ℚ) / decodeTimeOf 2 9) ∧
    (0 ≤ ttftOf 2 9 ∧ 0 ≤ decodeThroughputOf 2 9) :=
  ⟨(claim_C2_decode_throughput ⟨2048, 0, 100, 9, 2, 3, 0⟩).1.1
      (by norm_num [decodeTimeOf, ttftOf]),
    (claim_C2_decode_throughput ⟨2048, 0, 100, 9, 2, 3, 0⟩).2 (by norm_num)⟩

/-- C3 counterexample: the claim says the store content after a run is
the prior content followed by the new records; the code opens the store
with mode `"w"`, so at prior content `["o"]` and one measured record the
resulting store is just the one new line, not the prior line followed
by it. -/
theorem claim_C3_append_only_counterexample :
    ¬ (saveResults (fun _ => ['r'])
          [measureRecord ⟨2048, 0, 100, 9, 2, 3, 0⟩] [['o']]
        = [['o']] ++ [measureRecord ⟨2048, 0, 100, 9, 2, 3, 0⟩].map (fun _ => ['r'])) := by
  decide

/-- C3 (amended): the records are written once, after the whole
measurement loop, one serialised line per record in measurement order,
to the store opened in write (truncating) mode: the resulting store
content is exactly the serialised new records and is independent of any
prior store content. -/
theorem claim_C3_store_write (ser : Record → List Char) (obs : List EngineObs)
    (prior prior2 : List (List Char)) :
    saveResults ser (runBenchmark obs) prior = (obs.map measureRecord).map ser ∧
    saveResults ser (runBenchmark obs) prior
      = saveResults ser (runBenchmark obs) prior2 :=
  ⟨rfl, rfl⟩

/-- C4 counterexample: the claim says any field absent from a grouped
record is treated as 0 for every field the aggregator consumes; but for
a record that has a `context_length` and lacks `ttft` the aggregation
raises `KeyError` (modelled `Except.error`) instead of defaulting to 0. -/
theorem claim_C4_missing_field_counterexample :
    analyze_results
        [{ context_length := some 2048, sample_id := some 0,
           prompt_tokens := some 10, output_tokens := some 5,
           ttft := none, total_latency := some 1,
           decode_throughput := some 5, peak_gpu_memory_gb := none,
           timestamp := some 0 }] = .error () :=
  analyze_single_missing_ttft _ 2048 rfl rfl

lemma analyzeKeys_error_of_mem {results : List Record} {k : Int} :
    ∀ {ks : List Int}, k ∈ ks → metricsOf (groupOf results k) = .error () →
    analyzeKeys results ks = .error () := by
  intro ks
  induction ks with
  | nil => intro hk _; cases hk
  | cons k0 ks ih =>
    intro hk he
    rcases List.mem_cons.mp hk with h | h
    · subst h
      unfold analyzeKeys
      rw [he]
    · unfold analyzeKeys
      cases hm : metricsOf (groupOf results k0) with
      | error e => cases e; rfl
      | ok m => rw [ih h he]

lemma analyze_results_error_of_missing {results : List Record} {r : Record} {k : Int}
    (hr : r ∈ results) (hk : r.context_length = some k)
    (hmiss : r.ttft = none ∨ r.total_latency = none ∨ r.decode_throughput = none) :
    analyze_results results = .error () := by
  have h1 : k ∈ results.filterMap Record.context_length :=
    List.mem_filterMap.mpr ⟨r, hr, hk⟩
  have hkmem : k ∈ sortedKeys results := by
    unfold sortedKeys
    exact (List.perm_insertionSort _ _).mem_iff.mpr (List.mem_dedup.mpr h1)
  have hrg : r ∈ groupOf results k := by
    unfold groupOf
    exact List.mem_filter.mpr ⟨hr, by simp [hk]⟩
  have hneg : ¬ hasRequiredFields (groupOf results k) := by
    intro hreq
    obtain ⟨h1t, h2t, h3t⟩ := hreq r hrg
    rcases hmiss with hm | hm | hm
    · rw [hm] at h1t; simp at h1t
    · rw [hm] at h2t; simp at h2t
    · rw [hm] at h3t; simp at h3t
  have herr : metricsOf (groupOf results k) = .error () := by
    unfold metricsOf
    rw [if_neg hneg]
  show analyzeKeys results (sortedKeys results) = .error ()
  exact analyzeKeys_error_of_mem hkmem herr

/-- C4 (amended): only the three `.get`-accessed fields
(`peak_gpu_memory_gb`, `prompt_tokens`, `output_tokens`) default to 0
when absent — replacing an absent value of those fields by an explicit 0
leaves the whole aggregation unchanged — while a grouped record (any
record of the store carrying a `context_length`) that lacks any of the
subscript-accessed fields `ttft`, `total_latency` or `decode_throughput`
makes the whole aggregation fail with a `KeyError` rather than
contributing 0. -/
theorem claim_C4_optional_fields_default (results : List Record) (r : Record) (k : Int) :
    analyze_results (results.map fillOptional) = analyze_results results ∧
    (r ∈ results → r.context_length = some k →
      (r.ttft = none ∨ r.total_latency = none ∨ r.decode_throughput = none) →
      analyze_results results = .error ()) :=
  ⟨analyze_results_map_fill results,
    fun hr hk hmiss => analyze_results_error_of_missing hr hk hmiss⟩

/-- Witness for C4 (amended): a two-record store whose second record is
grouped under `context_length` 2 and lacks `total_latency`; the whole
aggregation errors. -/
theorem claim_C4_optional_fields_default_witness :
    wrecNoLat ∈ ([wrec1, wrecNoLat] : List Record) ∧
    analyze_results [wrec1, wrecNoLat] = .error () :=
  ⟨List.mem_cons_of_mem _ (List.mem_cons_self _ _),
    (claim_C4_optional_fields_default [wrec1, wrecNoLat] wrecNoLat 2).2
      (List.mem_cons_of_mem _ (List.mem_cons_self _ _)) rfl
      (Or.inr (Or.inl rfl))⟩

lemma snd_mem_of_mem_enumFrom {α : Type} :
    ∀ {n : ℕ} {ls : List α} {p : ℕ × α}, p ∈ List.enumFrom n ls → p.2 ∈ ls := by
  intro n ls
  induction ls generalizing n with
  | nil => intro p h; cases h
  | cons a as ih =>
    intro p h
    rw [show List.enumFrom n (a :: as) = (n, a) :: List.enumFrom (n + 1) as from rfl] at h
    rcases List.mem_cons.mp h with h1 | h1
    · subst h1; exact List.mem_cons_self _ _
    · exact List.mem_cons_of_mem _ (ih h1)

/-- C5: loading a store whose stripped lines are all nonblank — some
parsing as records, the rest malformed, in any interleaving — returns
exactly the well-formed records in file order, and warns once, with its
1-based line number, for each malformed line.  `load_results` is a total
function, so no input raises: a malformed line never aborts the load. -/
theorem claim_C5_malformed_lines_skipped (parse : List Char → Option Record)
    (lines : List (List Char)) (hnb : ∀ l ∈ lines, stripChars l ≠ []) :
    (load_results parse lines).1
      = lines.filterMap (fun l => parse (stripChars l)) ∧
    (load_results parse lines).2
      = (List.enumFrom 1 lines).filterMap (fun p =>
          match parse (stripChars p.2) with
          | some _ => none
          | none => some p.1) := by
  constructor
  · rw [load_results, loadAux_fst_eq]
    apply List.filterMap_congr
    intro l hl
    rw [if_neg (hnb l hl)]
  · rw [load_results, loadAux_snd_eq]
    apply List.filterMap_congr
    intro p hp
    rw [if_neg (hnb p.2 (snd_mem_of_mem_enumFrom hp))]

/-- Witness for C5: two well-formed lines around one malformed line give
back the two records and a warning for line 2. -/
theorem claim_C5_malformed_lines_skipped_witness :
    (∀ l ∈ ([['R'], ['x'], ['R']] : List (List Char)), stripChars l ≠ []) ∧
    ((load_results
          (fun s => if s = ['R'] then
            some ⟨none, none, none, none, none, none, none, none, none⟩ else none)
          [['R'], ['x'], ['R']]).1
        = [['R'], ['x'], ['R']].filterMap (fun l =>
            (fun s => if s = ['R'] then
              some ⟨none, none, none, none, none, none, none, none, none⟩ else none)
              (stripChars l)) ∧
      (load_results
          (fun s => if s = ['R'] then
            some ⟨none, none, none, none, none, none, none, none, none⟩ else none)
          [['R'], ['x'], ['R']]).2
        = (List.enumFrom 1 [['R'], ['x'], ['R']]).filterMap (fun p =>
            match (fun s => if s = ['R'] then
                some (⟨none, none, none, none, none, none, none, none,
                  none⟩ : Record) else none) (stripChars p.2) with
            | some _ => none
            | none => some p.1)) :=
  ⟨by decide,
    claim_C5_malformed_lines_skipped
      (fun s => if s = ['R'] then
        some ⟨none, none, none, none, none, none, none, none, none⟩ else none)
      [['R'], ['x'], ['R']] (by decide)⟩

/-- C6: when the store is empty or every line of it is blank or
unparsable, the top-level invocation stops with the terminal error
message and exit status 1, and emits neither the summary table nor a CSV
export. -/
theorem claim_C6_empty_store_hard_stop (parse : List Char → Option Record)
    (lines : List (List Char)) (writeCsv quiet : Bool)
    (h : ∀ l ∈ lines, parse (stripChars l) = none) :
    mainRun parse lines writeCsv quiet
      = .exitError 1 "No valid results found in file" ∧
    ∀ t c, mainRun parse lines writeCsv quiet ≠ MainOutcome.success t c := by
  have hload : (load_results parse lines).1 = [] := by
    rw [load_results, loadAux_fst_eq]
    apply List.filterMap_eq_nil_iff.mpr
    intro l hl
    by_cases hs : stripChars l = []
    · rw [if_pos hs]
    · rw [if_neg hs]; exact h l hl
  have hmain : mainRun parse lines writeCsv quiet
      = .exitError 1 "No valid results found in file" := by
    simp only [mainRun]
    rw [hload]
    simp
  exact ⟨hmain, fun t c hc => by rw [hmain] at hc; cases hc⟩

/-- Witness for C6 at a one-line store whose only line parses to
nothing. -/
theorem claim_C6_empty_store_hard_stop_witness :
    mainRun (fun _ => none) [['x']] true false
      = .exitError 1 "No valid results found in file" :=
  (claim_C6_empty_store_hard_stop (fun _ => none) [['x']] true false
    (fun _ _ => rfl)).1

/-- C10: a line that strips to nothing yields no record and no warning
(the record list and the warning count are those of the store without
it), while a nonblank unparsable line yields no record but exactly one
more warning; and a file whose content gains a trailing newline loads to
exactly the same result, records and warnings alike. -/
theorem claim_C10_blank_lines (parse : List Char → Option Record) :
    (∀ (b : List Char), stripChars b = [] →
      ∀ (l₁ l₂ : List (List Char)) (n : ℕ),
        (loadAux parse n (l₁ ++ b :: l₂)).1 = (loadAux parse n (l₁ ++ l₂)).1 ∧
        (loadAux parse n (l₁ ++ b :: l₂)).2.length
          = (loadAux parse n (l₁ ++ l₂)).2.length) ∧
    (∀ (b : List Char), stripChars b ≠ [] → parse (stripChars b) = none →
      ∀ (l₁ l₂ : List (List Char)) (n : ℕ),
        (loadAux parse n (l₁ ++ b :: l₂)).1 = (loadAux parse n (l₁ ++ l₂)).1 ∧
        (loadAux parse n (l₁ ++ b :: l₂)).2.length
          = (loadAux parse n (l₁ ++ l₂)).2.length + 1) ∧
    (∀ s : List Char,
      load_results parse (splitFileLines (s ++ ['\n']))
        = load_results parse (splitFileLines s)) :=
  ⟨fun b hb l₁ l₂ n => loadAux_insert_blank parse hb l₁ n l₂,
    fun b hb hpb l₁ l₂ n => loadAux_insert_malformed parse hb hpb l₁ n l₂,
    fun s => loadAux_split_newline parse s [] 1⟩

/-- Witness for C10: inserting a whitespace-only line before a
one-line store leaves the loaded records and the warning count
unchanged. -/
theorem claim_C10_blank_lines_witness :
    stripChars [' '] = [] ∧
    ((loadAux (fun _ => none) 1 ([] ++ [' '] :: [['x']])).1
        = (loadAux (fun _ => none) 1 ([] ++ [['x']])).1 ∧
      (loadAux (fun _ => none) 1 ([] ++ [' '] :: [['x']])).2.length
        = (loadAux (fun _ => none) 1 ([] ++ [['x']])).2.length) :=
  ⟨by decide, (claim_C10_blank_lines (fun _ => none)).1 [' '] (by decide) [] [['x']] 1⟩

lemma metricsOf_ok_fields {g : List Record} {m : Metrics} (h : metricsOf g = .ok m) :
    m.count = g.length ∧
    m.ttft_stdev_sq
      = (if g.length > 1 then sampleVariance (requiredVals Record.ttft g) else 0) := by
  simp only [metricsOf] at h
  by_cases hc : hasRequiredFields g
  · rw [if_pos hc] at h
    cases h
    exact ⟨rfl, rfl⟩
  · rw [if_neg hc] at h
    cases h

lemma analyze_one_record : analyze_results [wrec1] = .ok [(1, wmet1)] := by
  have hk : sortedKeys [wrec1] = [1] := by
    simp [sortedKeys, List.filterMap_cons, wrec1, List.dedup, List.insertionSort]
  have hg : groupOf [wrec1] 1 = [wrec1] := by
    simp [groupOf, List.filter_cons, wrec1]
  have hreq : hasRequiredFields [wrec1] := by
    intro r hr
    simp at hr
    subst hr
    simp [wrec1]
  have hm : metricsOf [wrec1] = .ok wmet1 := by
    simp only [metricsOf, requiredVals, if_pos hreq]
    congr 1
    simp [wrec1, wmet1, pyMean, pyMin, pyMax, pyMedian, List.filterMap_cons,
      List.insertionSort, List.orderedInsert]
  unfold analyze_results
  rw [hk]
  unfold analyzeKeys
  rw [hg, hm]
  rfl

/-- C7: for every group emitted by the aggregation, the reported ttft
standard deviation is 0.0 for a one-member group, and for two or more
members it is the Bessel-corrected sample standard deviation of the
group ttft values (the standard deviation is represented by its square
`ttft_stdev_sq`, compared here under `Real.sqrt`; among the tracked
metrics only `ttft` carries a standard deviation — the `Metrics`
structure, mirroring the code, has no other stdev field). -/
theorem claim_C7_ttft_stdev (results : List Record) (a : List (Int × Metrics))
    (k : Int) (m : Metrics) (ha : analyze_results results = .ok a)
    (hm : (k, m) ∈ a) :
    (m.count = 1 → Real.sqrt m.ttft_stdev_sq = 0) ∧
    (2 ≤ m.count →
      Real.sqrt m.ttft_stdev_sq
        = Real.sqrt (sampleVariance (requiredVals Record.ttft (groupOf results k)))) := by
  have ha2 : analyzeKeys results (sortedKeys results) = .ok a := ha
  have hok : metricsOf (groupOf results k) = .ok m := analyzeKeys_ok_mem ha2 (k, m) hm
  obtain ⟨hcount, hsd⟩ := metricsOf_ok_fields hok
  constructor
  · intro h1
    rw [hsd, if_neg (by omega)]
    simp
  · intro h2
    rw [hsd, if_pos (by omega)]

/-- Witness for C7 at the one-record store `[wrec1]`: its only group has
one member and standard deviation 0. -/
theorem claim_C7_ttft_stdev_witness :
    analyze_results [wrec1] = .ok [(1, wmet1)] ∧
    Real.sqrt wmet1.ttft_stdev_sq = 0 :=
  ⟨analyze_one_record,
    (claim_C7_ttft_stdev [wrec1] [(1, wmet1)] 1 wmet1 analyze_one_record
      (List.mem_cons_self _ _)).1 rfl⟩

/-- C8: aggregation is permutation-invariant — permuted record lists
produce identical results, error or not; records lacking
`context_length` are excluded from every group (dropping them changes
nothing); and the emitted group order is strictly ascending by
`context_length` whatever the input order. -/
theorem claim_C8_order_invariance :
    (∀ l₁ l₂ : List Record, l₁.Perm l₂ → analyze_results l₁ = analyze_results l₂) ∧
    (∀ results : List Record,
      analyze_results (results.filter (fun r => r.context_length.isSome))
        = analyze_results results) ∧
    (∀ (results : List Record) (a : List (Int × Metrics)),
      analyze_results results = .ok a → (a.map Prod.fst).Sorted (· < ·)) :=
  ⟨fun _ _ h => analyze_results_perm h,
    analyze_results_filter,
    fun _ _ ha => analyze_results_ok_sorted ha⟩

/-- Witness for C8: a two-record store and its transposition aggregate
identically, and the one-record store aggregates to a sorted (singleton)
group list. -/
theorem claim_C8_order_invariance_witness :
    (([wrec1, { wrec1 with context_length := some 2 }] :
        List Record).Perm [{ wrec1 with context_length := some 2 }, wrec1] ∧
      analyze_results [wrec1, { wrec1 with context_length := some 2 }]
        = analyze_results [{ wrec1 with context_length := some 2 }, wrec1]) ∧
    (analyze_results [wrec1] = .ok [(1, wmet1)] ∧
      (([(1, wmet1)] : List (Int × Metrics)).map Prod.fst).Sorted (· < ·)) :=
  ⟨⟨List.Perm.swap { wrec1 with context_length := some 2 } wrec1 [],
      claim_C8_order_invariance.1 _ _
        (List.Perm.swap { wrec1 with context_length := some 2 } wrec1 [])⟩,
    ⟨analyze_one_record,
      claim_C8_order_invariance.2.2 [wrec1] [(1, wmet1)] analyze_one_record⟩⟩

/-- C9: the CSV export writes exactly the specified header row, then one
data row per context-length group in the (ascending) order of the
analysis, and every data cell carries the same underlying statistic
value as the corresponding table cell, at full precision (the cells are
the exact values; the table truncates only at display time). -/
theorem claim_C9_csv_export (analysis : List (Int × Metrics)) :
    (export_to_csv analysis).1
      = ["context_length", "samples",
          "ttft_mean", "ttft_min", "ttft_max", "ttft_median", "ttft_stdev",
          "throughput_mean", "throughput_min", "throughput_max",
          "throughput_median",
          "latency_mean", "latency_min", "latency_max", "latency_median",
          "gpu_memory_mean", "gpu_memory_peak"] ∧
    (export_to_csv analysis).2 = analysis.map csvDataRow ∧
    (∀ km ∈ analysis,
      csvDataRow km = [(km.1 : ℚ), (km.2.count : ℚ)]
        ++ (ttftTableRow km).drop 2 ++ (throughputTableRow km).drop 2
        ++ (latencyTableRow km).drop 2 ++ (gpuTableRow km).drop 1) ∧
    (∀ results, analyze_results results = .ok analysis →
      (analysis.map Prod.fst).Sorted (· < ·)) :=
  ⟨rfl, rfl, fun _ _ => rfl, fun _ ha => analyze_results_ok_sorted ha⟩

/-- Witness for C9 at the analysis of the one-record store `[wrec1]`. -/
theorem claim_C9_csv_export_witness :
    ((1, wmet1) ∈ ([(1, wmet1)] : List (Int × Metrics)) ∧
      csvDataRow (1, wmet1) = [(((1, wmet1).1 : Int) : ℚ), ((1, wmet1).2.count : ℚ)]
        ++ (ttftTableRow (1, wmet1)).drop 2 ++ (throughputTableRow (1, wmet1)).drop 2
        ++ (latencyTableRow (1, wmet1)).drop 2 ++ (gpuTableRow (1, wmet1)).drop 1) ∧
    (analyze_results [wrec1] = .ok [(1, wmet1)] ∧
      (([(1, wmet1)] : List (Int × Metrics)).map Prod.fst).Sorted (· < ·)) :=
  ⟨⟨List.mem_cons_self _ _,
      (claim_C9_csv_export [(1, wmet1)]).2.2.1 (1, wmet1) (List.mem_cons_self _ _)⟩,
    ⟨analyze_one_record,
      (claim_C9_csv_export [(1, wmet1)]).2.2.2 [wrec1] analyze_one_record⟩⟩
